import Mathlib

/-!
Verification of the iffy HTTP integration-test orchestrator (package iffy).

The development shallowly embeds the orchestrator: the cross-call value
store with its two template functions (field / json), the built-in
checkers, the polymorphic body abstraction, and the sequential runner
Tester.Run.  Go dynamic values (interface values holding JSON-decoded
data) are embedded as the inductive type GoValue; Go maps are embedded
as association lists; the test-failure reporter (testing.T) is embedded
as an event trace emitted by the runner.
-/

set_option maxHeartbeats 1000000

/-- Embedding of a Go interface value as produced by JSON decoding, plus
the two extra shapes the source distinguishes: a nil map[string]interface
(the zero value left by a failed generic decode) and a map[string]string
(the second case of the type switch in fieldTmpl). -/
inductive GoValue where
  | vNull
  | vBool (b : Bool)
  | vNum (n : Int)
  | vStr (s : String)
  | vArr (xs : List GoValue)
  | vMap (m : List (String × GoValue))
  | vNilMap
  | vMapSS (m : List (String × String))

/-- Association-list lookup, embedding Go map indexing m[k]. -/
def lookupVals : List (String × GoValue) → String → Option GoValue
  | [], _ => none
  | (k, x) :: rest, n => if k = n then some x else lookupVals rest n

/-- Association-list lookup for map[string]string. -/
def lookupSS : List (String × String) → String → Option String
  | [], _ => none
  | (k, x) :: rest, n => if k = n then some x else lookupSS rest n

/-- Go map assignment m[k] = x: replace the binding if the key is
present, otherwise add it. -/
def insertVal : List (String × GoValue) → String → GoValue → List (String × GoValue)
  | [], n, x => [(n, x)]
  | (k, y) :: rest, n, x =>
    if k = n then (n, x) :: rest else (k, y) :: insertVal rest n x

/-- Insertion of one key-ordered pair, used to model the sorted key order
of the encoding/json and fmt output of Go for maps. -/
def insertPair {α : Type} (p : String × α) : List (String × α) → List (String × α)
  | [] => [p]
  | q :: rest => if p.1 ≤ q.1 then p :: q :: rest else q :: insertPair p rest

/-- Insertion sort of map entries by key. -/
def sortPairs {α : Type} : List (String × α) → List (String × α)
  | [] => []
  | p :: rest => insertPair p (sortPairs rest)

/-- Go type description as printed by the percent-T verb of fmt, used in the
cannot-dereference error of fieldTmpl. -/
def goTypeName : GoValue → String
  | .vNull => "<nil>"
  | .vBool _ => "bool"
  | .vNum _ => "float64"
  | .vStr _ => "string"
  | .vArr _ => "[]interface \x7b\x7d"
  | .vMap _ => "map[string]interface \x7b\x7d"
  | .vNilMap => "map[string]interface \x7b\x7d"
  | .vMapSS _ => "map[string]string"

mutual

/-- Modelled from the Go standard library: the percent-v rendering by fmt of a
decoded JSON value (numbers without exponent, strings unquoted, maps in
sorted key order). Only the scalar cases are exercised by the claims. -/
def goFmt : GoValue → String
  | .vNull => "<nil>"
  | .vBool b => if b then "true" else "false"
  | .vNum n => toString n
  | .vStr s => s
  | .vArr xs => "[" ++ String.intercalate " " (goFmtList xs) ++ "]"
  | .vMap m =>
    "map[" ++ String.intercalate " "
      ((sortPairs (goFmtPairs m)).map (fun q => q.1 ++ ":" ++ q.2)) ++ "]"
  | .vNilMap => "map[]"
  | .vMapSS m =>
    "map[" ++ String.intercalate " "
      ((sortPairs m).map (fun p => p.1 ++ ":" ++ p.2)) ++ "]"

/-- Rendering of each element of a JSON list. -/
def goFmtList : List GoValue → List String
  | [] => []
  | x :: rest => goFmt x :: goFmtList rest

/-- Rendering of each value of a JSON object. -/
def goFmtPairs : List (String × GoValue) → List (String × String)
  | [] => []
  | (k, x) :: rest => (k, goFmt x) :: goFmtPairs rest

end

/-- Minimal JSON string escaping as performed by encoding/json for the
characters the claims exercise. -/
def jsonEscape (s : String) : String :=
  String.join (s.data.map (fun c =>
    if c = '\\' then "\\\\"
    else if c = '\x22' then "\\\x22"
    else if c = '\n' then "\\n"
    else if c = '\t' then "\\t"
    else if c = '\r' then "\\r"
    else String.singleton c))

mutual

/-- Modelled from the Go standard library: encoding/json Marshal on a
JSON-decoded value tree. Marshal cannot fail on such trees (no channels,
functions or non-finite floats occur), so the embedding is total; map
keys are emitted in sorted order as encoding/json does; a nil map
marshals to null. -/
def jsonMarshal : GoValue → String
  | .vNull => "null"
  | .vBool b => if b then "true" else "false"
  | .vNum n => toString n
  | .vStr s => "\x22" ++ jsonEscape s ++ "\x22"
  | .vArr xs => "[" ++ String.intercalate "," (jsonMarshalList xs) ++ "]"
  | .vMap m =>
    "\x7b" ++ String.intercalate ","
      ((sortPairs (jsonMarshalPairs m)).map
        (fun q => "\x22" ++ jsonEscape q.1 ++ "\x22:" ++ q.2)) ++ "\x7d"
  | .vNilMap => "null"
  | .vMapSS m =>
    "\x7b" ++ String.intercalate ","
      ((sortPairs m).map
        (fun p => "\x22" ++ jsonEscape p.1 ++ "\x22:\x22" ++ jsonEscape p.2 ++ "\x22")) ++ "\x7d"

/-- Marshalling of each element of a JSON list. -/
def jsonMarshalList : List GoValue → List String
  | [] => []
  | x :: rest => jsonMarshal x :: jsonMarshalList rest

/-- Marshalling of each value of a JSON object. -/
def jsonMarshalPairs : List (String × GoValue) → List (String × String)
  | [] => []
  | (k, x) :: rest => (k, jsonMarshal x) :: jsonMarshalPairs rest

end

/-- The ValueStore: Values is map[string]interface in the source,
embedded as an association list of GoValue trees. -/
abbrev Values := List (String × GoValue)

/-- One iteration of the loop in Values.fieldTmpl: the type switch on
the current interface value.  A map[string]interface node (nil or not)
is indexed, a miss substituting the literal no-value string; a
map[string]string node likewise; any other dynamic type yields the
cannot-dereference error. -/
def fieldStep (i : GoValue) (k : String) : Except String GoValue :=
  match i with
  | .vMap m =>
    match lookupVals m k with
    | some x => .ok x
    | none => .ok (.vStr "<no value>")
  | .vNilMap => .ok (.vStr "<no value>")
  | .vMapSS m =>
    match lookupSS m k with
    | some s => .ok (.vStr s)
    | none => .ok (.vStr "<no value>")
  | x => .error ("cannot dereference " ++ goTypeName x)

/-- The key loop of Values.fieldTmpl: successive dereference with early
return on error, exactly as the Go for-loop over the key variadic. -/
def fieldFold : GoValue → List String → Except String GoValue
  | i, [] => .ok i
  | i, k :: rest =>
    match fieldStep i k with
    | .error e => .error e
    | .ok i2 => fieldFold i2 rest

/-- Values.fieldTmpl: start from the root store viewed as a
map[string]interface and walk the key path. -/
def fieldTmpl (v : Values) (keys : List String) : Except String GoValue :=
  fieldFold (.vMap v) keys

/-- Values.jsonFieldTmpl: the field traversal followed by json.Marshal
of the resolved value (Marshal is total on decoded trees, see
jsonMarshal). -/
def jsonFieldTmpl (v : Values) (keys : List String) : Except String GoValue :=
  match fieldTmpl v keys with
  | .error e => .error e
  | .ok i => .ok (.vStr (jsonMarshal i))

/-- Modelled from the spec: the template mini-language evaluated by
Values.Apply (section 4.2).  The Go source delegates parsing and
execution to text/template restricted to the two functions field and
json; the embedding represents a template string as its parsed form: a
literal, a concatenation, a call of one of the two functions, or a
string that fails to parse. -/
inductive Tmpl where
  | lit (s : String)
  | cat (a b : Tmpl)
  | fieldCall (keys : List String)
  | jsonCall (keys : List String)
  | malformed (msg : String)
  deriving DecidableEq

/-- Values.Apply: parse failure surfaces the parse error; execution
renders literals as themselves and splices the fmt rendering of the
value returned by field or json, propagating their errors as execution
errors. -/
def Apply (v : Values) : Tmpl → Except String String
  | .lit s => .ok s
  | .cat a b =>
    match Apply v a with
    | .error e => .error e
    | .ok sa =>
      match Apply v b with
      | .error e => .error e
      | .ok sb => .ok (sa ++ sb)
  | .fieldCall keys =>
    match fieldTmpl v keys with
    | .error e => .error e
    | .ok i => .ok (goFmt i)
  | .jsonCall keys =>
    match jsonFieldTmpl v keys with
    | .error e => .error e
    | .ok i => .ok (goFmt i)
  | .malformed msg => .error msg

/-- Observable events of one Run invocation: the reporter sink
(testing.T Error calls) together with the actions of the runner on shared
state, in execution order. -/
inductive Ev where
  | callStart (name : String)
  | report (msg : String)
  | served (name : String) (url : String)
  | bodyRead (name : String)
  | storeWrite (name : String)
  | checkerRun (name : String) (idx : Nat)
  deriving DecidableEq

/-- Tester.applyTemplate: a render error is sent to the reporter and
the empty string is returned, so the caller always receives a usable
string. -/
def applyTemplate (v : Values) (s : Tmpl) : String × List Ev :=
  match Apply v s with
  | .error e => ("", [Ev.report e])
  | .ok b => (b, [])

/-- Response body as observed by the runner: absent (resp.Body is nil),
or bytes abstracted by their JSON parse: some value when the bytes are
valid JSON, none otherwise. -/
inductive RespBody where
  | absent
  | text (bt : Option GoValue)

/-- Captured response of the handler under test. -/
structure Response where
  statusCode : Int
  body : RespBody

/-- Checker contract: a function of the captured response and the
response body text (abstracted by its JSON parse); the opaque decoded
respObject argument of the Go signature carries no structure the
built-in checkers use and is omitted.  The result is the error: none
for nil, some message for failure. -/
abbrev CheckerF := Response → Option GoValue → Option String

/-- Embedding of json.Unmarshal of the body text into a freshly
initialized empty map[string]interface: succeeds exactly on a JSON
object (yielding its fields) or on JSON null (leaving the map empty);
everything else is a decode error. -/
def unmarshalToMap : Option GoValue → Except String (List (String × GoValue))
  | some (.vMap m) => .ok m
  | some .vNull => .ok []
  | _ => .error "json: cannot unmarshal body into map[string]interface"

/-- Embedding of json.Unmarshal of the body text into an empty
interface slice. -/
def unmarshalToList : Option GoValue → Except String (List GoValue)
  | some (.vArr l) => .ok l
  | some .vNull => .ok []
  | _ => .error "json: cannot unmarshal body into []interface"

/-- ExpectStatus: fails unless the status code matches exactly. -/
def ExpectStatus (st : Int) : CheckerF := fun r _ =>
  if r.statusCode ≠ st then
    some ("Bad status code: expected " ++ toString st ++ ", got " ++ toString r.statusCode)
  else none

/-- ExpectJSONFields: decodes the body as an object and requires each
named top-level key to be present. -/
def ExpectJSONFields (fields : List String) : CheckerF := fun _ bt =>
  match unmarshalToMap bt with
  | .error e => some e
  | .ok m =>
    (fields.foldl (fun acc f =>
      match acc with
      | some e => some e
      | none =>
        match lookupVals m f with
        | some _ => none
        | none => some ("Missing expected field \x27" ++ f ++ "\x27")) none)

/-- ExpectListLength: decodes the body as a list and compares the
length. -/
def ExpectListLength (length : Nat) : CheckerF := fun _ bt =>
  match unmarshalToList bt with
  | .error e => some e
  | .ok l =>
    if l.length ≠ length then
      some ("Expected a list of length " ++ toString length ++ ", got " ++ toString l.length)
    else none

/-- ExpectListNonEmpty: decodes the body as a list and requires at
least one element. -/
def ExpectListNonEmpty : CheckerF := fun _ bt =>
  match unmarshalToList bt with
  | .error e => some e
  | .ok l => if l.length = 0 then some "Expected a non empty list" else none

/-- The Go type assertion of ExpectJSONBranch on
map[string]interface: succeeds on a map (a nil map yielding the empty
map) and fails on every other dynamic type. -/
def GoValue.asMap : GoValue → Option (List (String × GoValue))
  | .vMap m => some m
  | .vNilMap => some []
  | _ => none

/-- The indexed loop of ExpectJSONBranch: at position i the node is
looked up in the current map m; a miss fails; an object child replaces
the cursor; a non-object child at the second-to-last position is
compared (via fmt) with the final path element; a non-object child
anywhere else leaves the cursor unchanged and the loop continues. -/
def branchGo (nodes : List String) (i : Nat) (m : List (String × GoValue)) :
    Except String Unit :=
  if h : i < nodes.length then
    let n := nodes.get ⟨i, h⟩
    match lookupVals m n with
    | none => .error ("Missing node \x27" ++ n ++ "\x27")
    | some v =>
      match v.asMap with
      | some child => branchGo nodes (i + 1) child
      | none =>
        if h2 : i + 2 = nodes.length then
          let lastNode := nodes.get ⟨i + 1, by omega⟩
          if goFmt v = lastNode then .ok ()
          else .error ("Wrong value: expected \x27" ++ lastNode ++ "\x27, got \x27" ++ goFmt v ++ "\x27")
        else branchGo nodes (i + 1) m
  else .ok ()
termination_by nodes.length - i

/-- ExpectJSONBranch: decode the body as an object then walk the node
path. -/
def ExpectJSONBranch (nodes : List String) : CheckerF := fun _ bt =>
  match unmarshalToMap bt with
  | .error e => some e
  | .ok m =>
    match branchGo nodes 0 m with
    | .ok _ => none
    | .error e => some e

/-- Modelled from the spec: a caller-supplied Body implementation other
than NoopBody and StringBody (the Body contract of section 4.1): a
GetBody function receiving the render function, and a content type. -/
structure CustomBody where
  run : (Tmpl → String) → Except String String
  ct : String

/-- The closed set of Body variants the runner can receive: NoopBody,
StringBody holding a template string, or any other implementation of
the Body contract. -/
inductive BodyV where
  | noopBody
  | stringBody (s : Tmpl)
  | custom (c : CustomBody)

/-- Modelled from the spec: Body.GetBody invoked with
Tester.applyTemplate as the render function (section 4.1).  NoopBody
yields an empty stream and no error; StringBody renders its held
template through the swallowing render (so it never returns an error
itself); a custom body runs its own GetBody.  The second component is
the reporter traffic applyTemplate generated while rendering. -/
def BodyV.getBodyR (b : BodyV) (v : Values) : Except String String × List Ev :=
  match b with
  | .noopBody => (.ok "", [])
  | .stringBody s => (.ok (applyTemplate v s).1, (applyTemplate v s).2)
  | .custom c => (c.run (fun t => (applyTemplate v t).1), [])

/-- Modelled from the spec: Body.ContentType; empty means do not set
the header (section 4.1). -/
def BodyV.contentType : BodyV → String
  | .noopBody => ""
  | .stringBody _ => ""
  | .custom c => c.ct

/-- Modelled from the spec: the Call aggregate (section 3); the struct
literal fields of AddCall plus the header, checker and decode-target
attachments.  The decode target respObject is opaque to the runner
except for whether json.Unmarshal of the body into it succeeds, which
the embedding records as a predicate on the body text. -/
structure Call where
  Name : String
  Method : String
  QueryStr : Tmpl
  Body : BodyV
  headers : List (Tmpl × Tmpl) := []
  checkers : List CheckerF := []
  respObject : Option (Option GoValue → Bool) := none

/-- The Tester aggregate: the call list and the value store (the
reporter and handler are passed to the runner as the environment). -/
structure Tester where
  Calls : List Call
  values : Values

/-- NewTester: empty value store. -/
def NewTester (calls : List Call) : Tester :=
  { Calls := calls, values := [] }

/-- The heterogeneous body argument of AddCall: a value already
implementing Body, a raw (template) string, or anything else. -/
inductive BodyArg where
  | typed (b : BodyV)
  | rawString (s : Tmpl)
  | other

/-- Tester.AddCall: normalize the body argument (an implementation of
Body passes through; a non-empty raw string becomes a StringBody; the
empty string and any other value become a NoopBody), build the Call
and append it to the call list.  Raw template strings are represented
by their parsed form, the empty string parsing to the empty literal. -/
def AddCall (t : Tester) (name method : String) (querystr : Tmpl) (body : BodyArg) :
    Tester × Call :=
  let bodyInterface : BodyV :=
    match body with
    | .typed b => b
    | .rawString s => if s = Tmpl.lit "" then .noopBody else .stringBody s
    | .other => .noopBody
  let c : Call :=
    { Name := name, Method := method, QueryStr := querystr, Body := bodyInterface }
  ({ t with Calls := t.Calls ++ [c] }, c)

/-- Request as constructed by the runner: method, rendered URL, headers
(content-type first when non-empty, then the rendered header pairs),
and the body stream contents. -/
structure Request where
  method : String
  url : String
  headers : List (String × String)
  body : String

/-- Environment of the runner: the handler under test (http.Handler
invoked through the recorder) and the success of http.NewRequest on a
method and rendered URL. -/
structure Env where
  serve : Request → Response
  newRequestOk : String → String → Bool

/-- Rendering of the configured header pairs (key and value both
templated), with the reporter traffic of each render. -/
def renderHeaders (v : Values) : List (Tmpl × Tmpl) → List (String × String) × List Ev
  | [] => ([], [])
  | (k, val) :: rest =>
    let rk := applyTemplate v k
    let rv := applyTemplate v val
    let rrest := renderHeaders v rest
    ((rk.1, rv.1) :: rrest.1, rk.2 ++ rv.2 ++ rrest.2)

/-- The request Run constructs for a call once GetBody has succeeded. -/
def builtRequest (v : Values) (c : Call) (bodyStr : String) : Request :=
  { method := c.Method
    url := (applyTemplate v c.QueryStr).1
    headers :=
      (if c.Body.contentType ≠ "" then [("content-type", c.Body.contentType)] else [])
        ++ (renderHeaders v c.headers).1
    body := bodyStr }

/-- Generic best-effort decode into the zero-valued retJson map: a JSON
object body fills the map, anything else (invalid JSON, null, or a
non-object value) leaves it the nil map, the error being discarded. -/
def decodeGeneric : Option GoValue → GoValue
  | some (.vMap m) => .vMap m
  | _ => .vNilMap

/-- Whether the typed decode step of Run succeeds for this call: no
registered target always succeeds, a registered target succeeds when
json.Unmarshal of the body into it does. -/
def respDecodeOk (c : Call) (bt : Option GoValue) : Bool :=
  match c.respObject with
  | some dec => dec bt
  | none => true

/-- One checker invocation per registered checker in order; a non-nil
error is reported prefixed by the call name. -/
def runChecks (name : String) (checkers : List CheckerF) (resp : Response)
    (bt : Option GoValue) : List Ev :=
  checkers.enum.flatMap (fun p =>
    match p.2 resp bt with
    | some e => [Ev.checkerRun name p.1, Ev.report (name ++ ": " ++ e)]
    | none => [Ev.checkerRun name p.1])

/-- The tail of one Run iteration after the handler responded: read the
body if present, run the typed decode (failure reports and abandons the
iteration), best-effort decode into the store under the call name, then
run the checkers. -/
def storePhase (v : Values) (c : Call) (resp : Response) : Values × List Ev :=
  match resp.body with
  | .absent => (v, runChecks c.Name c.checkers resp none)
  | .text bt =>
    match c.respObject with
    | some dec =>
      if dec bt then
        (insertVal v c.Name (decodeGeneric bt),
          [Ev.bodyRead c.Name, Ev.storeWrite c.Name] ++ runChecks c.Name c.checkers resp bt)
      else
        (v, [Ev.bodyRead c.Name, Ev.report "json: cannot unmarshal body into respObject"])
    | none =>
      (insertVal v c.Name (decodeGeneric bt),
        [Ev.bodyRead c.Name, Ev.storeWrite c.Name] ++ runChecks c.Name c.checkers resp bt)

/-- One iteration of the loop of Tester.Run: build the body (failure
reports and skips the call), render the query string (the render error,
if any, is reported inside applyTemplate and the empty string is used),
construct the request (failure reports and skips the call), serve it,
then the store phase. -/
def runCall (env : Env) (v : Values) (c : Call) : Values × List Ev :=
  match (c.Body.getBodyR v).1 with
  | .error e => (v, Ev.callStart c.Name :: ((c.Body.getBodyR v).2 ++ [Ev.report e]))
  | .ok bodyStr =>
    if env.newRequestOk c.Method (applyTemplate v c.QueryStr).1 then
      ((storePhase v c (env.serve (builtRequest v c bodyStr))).1,
        Ev.callStart c.Name ::
          ((c.Body.getBodyR v).2 ++ (applyTemplate v c.QueryStr).2
            ++ (renderHeaders v c.headers).2
            ++ [Ev.served c.Name (applyTemplate v c.QueryStr).1]
            ++ (storePhase v c (env.serve (builtRequest v c bodyStr))).2))
    else
      (v, Ev.callStart c.Name ::
        ((c.Body.getBodyR v).2 ++ (applyTemplate v c.QueryStr).2
          ++ [Ev.report ("net/http: invalid request " ++ c.Method ++ " "
              ++ (applyTemplate v c.QueryStr).1)]))

/-- The loop of Tester.Run over the call list, threading the value
store and concatenating the event trace. -/
def runCalls (env : Env) : List Call → Values → Values × List Ev
  | [], v => (v, [])
  | c :: rest, v =>
    let r1 := runCall env v c
    let r2 := runCalls env rest r1.1
    (r2.1, r1.2 ++ r2.2)

/-- Tester.Run on a freshly constructed Tester: the store starts
empty. -/
def Run (env : Env) (calls : List Call) : Values × List Ev :=
  runCalls env calls []

/-- The response a call obtains, when body construction and request
construction both succeed. -/
def responseOf (env : Env) (v : Values) (c : Call) : Option Response :=
  match (c.Body.getBodyR v).1 with
  | .error _ => none
  | .ok bs =>
    if env.newRequestOk c.Method (applyTemplate v c.QueryStr).1 then
      some (env.serve (builtRequest v c bs))
    else none

/-- Whether the call, run against store v, ends up writing its
ValueStore entry: it obtained a response, the response had a body, and
the typed decode step succeeded. -/
def producesEntry (env : Env) (v : Values) (c : Call) : Bool :=
  match responseOf env v c with
  | none => false
  | some r =>
    match r.body with
    | .absent => false
    | .text bt => respDecodeOk c bt

/-- The value such a write stores: the best-effort generic decode of
the response body. -/
def storedVal (env : Env) (v : Values) (c : Call) : GoValue :=
  match responseOf env v c with
  | some r =>
    match r.body with
    | .text bt => decodeGeneric bt
    | .absent => .vNilMap
  | none => .vNilMap

/-- The store position of the head of the call list before call j runs:
the value store produced by running the first j calls from the empty
store. -/
def stateAt (env : Env) (calls : List Call) (j : Nat) : Values :=
  (runCalls env (calls.take j) []).1

/-- Whether a dynamic value can be dereferenced by fieldTmpl: one of
the two map cases of its type switch (a nil map dereferences too). -/
def GoValue.isMapLike : GoValue → Bool
  | .vMap _ => true
  | .vNilMap => true
  | .vMapSS _ => true
  | _ => false

/-- The name announced by a callStart event, if any. -/
def evStartName : Ev → Option String
  | .callStart n => some n
  | _ => none

/-- A response value for invoking checkers directly in examples (its
fields are unused by the body-directed checkers). -/
def respDummy : Response :=
  { statusCode := 200, body := RespBody.absent }

/-- Environment whose handler always answers with a JSON object body
carrying an id field. -/
def idEnv : Env :=
  { serve := fun _ => { statusCode := 200, body := .text (some (.vMap [("id", .vNum 7)])) },
    newRequestOk := fun _ _ => true }

/-- Two calls with distinct names, the second interpolating the first
stored id of the first call into its query string. -/
def callA : Call :=
  { Name := "A", Method := "GET", QueryStr := .lit "/a", Body := .noopBody }

/-- Second call of the two-call scenario. -/
def callB : Call :=
  { Name := "B", Method := "GET", QueryStr := .fieldCall ["A", "id"], Body := .noopBody }

/-- Environment whose handler answers with a body that is valid JSON
but not an object (the string x), so a typed decode into a struct
target fails. -/
def decodeFailEnv : Env :=
  { serve := fun _ => { statusCode := 200, body := .text (some (.vStr "x")) },
    newRequestOk := fun _ _ => true }

/-- A call with a registered decode target that only accepts JSON
object bodies. -/
def decodeFailCall : Call :=
  { Name := "c1", Method := "GET", QueryStr := .lit "/", Body := .noopBody,
    respObject := some (fun bt => match bt with | some (.vMap _) => true | _ => false) }

/-- Environment whose handler answers with no body at all. -/
def absentBodyEnv : Env :=
  { serve := fun _ => { statusCode := 200, body := .absent },
    newRequestOk := fun _ _ => true }

/-- A call whose query-string template does not parse. -/
def malformedQueryCall : Call :=
  { Name := "c", Method := "GET", QueryStr := .malformed "template: parse error",
    Body := .noopBody }

/-- Environment whose handler answers with a body that is not valid
JSON at all. -/
def badJsonEnv : Env :=
  { serve := fun _ => { statusCode := 200, body := .text none },
    newRequestOk := fun _ _ => true }

/-- A plain call with no decode target. -/
def plainCall : Call :=
  { Name := "p", Method := "GET", QueryStr := .lit "/p", Body := .noopBody }


theorem lookup_insertVal_self (v : Values) (n : String) (x : GoValue) :
    lookupVals (insertVal v n x) n = some x := by
  induction v with
  | nil => simp [insertVal, lookupVals]
  | cons p rest ih =>
    obtain ⟨k, y⟩ := p
    by_cases h : k = n
    · simp [insertVal, h, lookupVals]
    · simp [insertVal, h, lookupVals, ih]

theorem lookup_insertVal_ne (v : Values) (n k : String) (x : GoValue) (h : k ≠ n) :
    lookupVals (insertVal v n x) k = lookupVals v k := by
  have hnk : ¬ n = k := fun hh => h hh.symm
  induction v with
  | nil => simp [insertVal, lookupVals, hnk]
  | cons p rest ih =>
    obtain ⟨k2, y⟩ := p
    by_cases h2 : k2 = n
    · subst h2
      simp [insertVal, lookupVals, hnk]
    · simp only [insertVal, if_neg h2, lookupVals]
      by_cases h3 : k2 = k
      · simp [h3]
      · simp [h3, ih]

theorem fieldFold_str (s k : String) (rest : List String) :
    fieldFold (.vStr s) (k :: rest) = .error "cannot dereference string" := rfl

theorem fieldStep_ok_of_mapLike (i : GoValue) (k : String) (h : i.isMapLike = true) :
    ∃ x, fieldStep i k = .ok x := by
  cases i with
  | vMap m => cases hl : lookupVals m k <;> simp [fieldStep, hl]
  | vNilMap => simp [fieldStep]
  | vMapSS m => cases hl : lookupSS m k <;> simp [fieldStep, hl]
  | vNull => simp [GoValue.isMapLike] at h
  | vBool b => simp [GoValue.isMapLike] at h
  | vNum n => simp [GoValue.isMapLike] at h
  | vStr s => simp [GoValue.isMapLike] at h
  | vArr xs => simp [GoValue.isMapLike] at h

theorem branchGo_end (nodes : List String) (m : List (String × GoValue)) (i : Nat)
    (h : nodes.length ≤ i) : branchGo nodes i m = .ok () := by
  rw [branchGo]
  simp [Nat.not_lt.mpr h]

theorem branchGo_miss (nodes : List String) (m : List (String × GoValue)) (i : Nat)
    (h : i < nodes.length) (hm : lookupVals m (nodes.get ⟨i, h⟩) = none) :
    branchGo nodes i m = .error ("Missing node \x27" ++ nodes.get ⟨i, h⟩ ++ "\x27") := by
  have hm2 : lookupVals m nodes[i] = none := by simpa using hm
  rw [branchGo]
  simp [h, hm2]

theorem branchGo_advance (nodes : List String) (m child : List (String × GoValue))
    (i : Nat) (v : GoValue) (h : i < nodes.length)
    (hl : lookupVals m (nodes.get ⟨i, h⟩) = some v) (hc : v.asMap = some child) :
    branchGo nodes i m = branchGo nodes (i + 1) child := by
  have hl2 : lookupVals m nodes[i] = some v := by simpa using hl
  conv_lhs => rw [branchGo]
  simp [h, hl2, hc]

theorem branchGo_skip (nodes : List String) (m : List (String × GoValue))
    (i : Nat) (v : GoValue) (h : i < nodes.length)
    (hl : lookupVals m (nodes.get ⟨i, h⟩) = some v) (hc : v.asMap = none)
    (h2 : ¬ i + 2 = nodes.length) :
    branchGo nodes i m = branchGo nodes (i + 1) m := by
  have hl2 : lookupVals m nodes[i] = some v := by simpa using hl
  conv_lhs => rw [branchGo]
  simp [h, hl2, hc, h2]

theorem branchGo_compare (nodes : List String) (m : List (String × GoValue))
    (i : Nat) (v : GoValue) (h : i < nodes.length) (h2 : i + 2 = nodes.length)
    (hl : lookupVals m (nodes.get ⟨i, h⟩) = some v) (hc : v.asMap = none) :
    branchGo nodes i m =
      (if goFmt v = nodes.get ⟨i + 1, by omega⟩ then .ok ()
       else .error ("Wrong value: expected \x27" ++ nodes.get ⟨i + 1, by omega⟩
         ++ "\x27, got \x27" ++ goFmt v ++ "\x27")) := by
  have hl2 : lookupVals m nodes[i] = some v := by simpa using hl
  rw [branchGo]
  simp [h, hl2, hc, h2]

theorem expectJSONBranch_eval (nodes : List String) (resp : Response)
    (m : List (String × GoValue)) :
    ExpectJSONBranch nodes resp (some (.vMap m)) =
      (match branchGo nodes 0 m with
       | .ok _ => none
       | .error e => some e) := rfl

/-- C5: field of a two-key path returns the stored leaf when both keys
resolve; a miss of the final key on an empty object yields the literal
no-value string with no error; and a further key applied to a non-map
value is a dereference error. -/
theorem field_examples :
    fieldTmpl [("a", GoValue.vMap [("b", GoValue.vStr "x")])] ["a", "b"]
      = .ok (.vStr "x")
    ∧ fieldTmpl [("a", GoValue.vMap [])] ["a", "b"] = .ok (.vStr "<no value>")
    ∧ fieldTmpl [("a", GoValue.vStr "z")] ["a", "b"]
      = .error "cannot dereference string" :=
  ⟨rfl, rfl, rfl⟩

/-- C7: json performs the identical key-path traversal as field — an
error of the traversal is returned unchanged, and a resolved value is
re-serialized with json.Marshal (total on decoded trees, so json errs
exactly when the traversal errs) — and json of a single key resolving
to an object yields the canonical JSON text of that object. -/
theorem json_traversal_and_serialization :
    (∀ (v : Values) (keys : List String) (e : String),
      fieldTmpl v keys = .error e → jsonFieldTmpl v keys = .error e)
    ∧ (∀ (v : Values) (keys : List String) (i : GoValue),
      fieldTmpl v keys = .ok i → jsonFieldTmpl v keys = .ok (.vStr (jsonMarshal i)))
    ∧ jsonFieldTmpl [("a", GoValue.vMap [("x", GoValue.vNum 1)])] ["a"]
      = .ok (.vStr "\x7b\x22x\x22:1\x7d") := by
  refine ⟨?_, ?_, rfl⟩
  · intro v keys e h
    simp [jsonFieldTmpl, h]
  · intro v keys i h
    simp [jsonFieldTmpl, h]

theorem json_traversal_and_serialization_witness :
    jsonFieldTmpl [("a", GoValue.vMap [("x", GoValue.vNum 1)])] ["a"]
      = .ok (.vStr (jsonMarshal (GoValue.vMap [("x", GoValue.vNum 1)]))) :=
  json_traversal_and_serialization.2.1
    [("a", GoValue.vMap [("x", GoValue.vNum 1)])] ["a"]
    (GoValue.vMap [("x", GoValue.vNum 1)]) rfl

/-- C3 counterexample: the path a, x, y over a store where a holds the
empty object — the intermediate key x is absent on a map-like node, yet
field returns a dereference error rather than the no-value literal,
because the next segment y dereferences the substituted string. -/
theorem field_intermediate_miss_cex :
    fieldTmpl [("a", GoValue.vMap [])] ["a", "x", "y"]
      = .error "cannot dereference string" := rfl

/-- C3 (amended): a miss of the final key on a map-like node yields the
literal no-value string and no error; a miss of an intermediate key
substitutes that string, and the following segment then fails with a
cannot-dereference error; field succeeds whenever every proper prefix of
the path resolves to a map-like value. -/
theorem field_miss_semantics :
    (∀ (m : List (String × GoValue)) (k : String), lookupVals m k = none →
      fieldFold (.vMap m) [k] = .ok (.vStr "<no value>"))
    ∧ (∀ (s k : String) (rest : List String),
      fieldFold (.vStr s) (k :: rest) = .error "cannot dereference string")
    ∧ (∀ (m : List (String × GoValue)) (k k2 : String) (rest : List String),
      lookupVals m k = none →
      fieldFold (.vMap m) (k :: k2 :: rest) = .error "cannot dereference string")
    ∧ (∀ (keys : List String) (i : GoValue), i.isMapLike = true →
      (∀ (j : Nat) (x : GoValue), j + 1 ≤ keys.length →
        fieldFold i (keys.take j) = .ok x → x.isMapLike = true) →
      ∃ y, fieldFold i keys = .ok y) := by
  refine ⟨?_, fieldFold_str, ?_, ?_⟩
  · intro m k h
    simp [fieldFold, fieldStep, h]
  · intro m k k2 rest h
    have h2 : fieldStep (.vMap m) k = .ok (.vStr "<no value>") := by
      simp [fieldStep, h]
    simp only [fieldFold, h2]
    exact fieldFold_str _ k2 rest
  · intro keys
    induction keys with
    | nil => exact fun i _ _ => ⟨i, rfl⟩
    | cons k rest ih =>
      intro i hmap hpre
      obtain ⟨i1, hstep⟩ := fieldStep_ok_of_mapLike i k hmap
      cases rest with
      | nil => exact ⟨i1, by simp [fieldFold, hstep]⟩
      | cons k2 rest2 =>
        have h1map : i1.isMapLike = true := by
          refine hpre 1 i1 (by simp) ?_
          simp [List.take, fieldFold, hstep]
        obtain ⟨y, hy⟩ := ih i1 h1map (by
          intro j x hj hfold
          refine hpre (j + 1) x (by simp at hj ⊢; omega) ?_
          simp [List.take, fieldFold, hstep, hfold])
        refine ⟨y, ?_⟩
        simp only [fieldFold, hstep]
        exact hy

theorem field_miss_semantics_witness :
    fieldFold (.vMap ([] : List (String × GoValue))) ("x" :: "y" :: [])
      = .error "cannot dereference string" :=
  field_miss_semantics.2.2.1 [] "x" "y" [] rfl

/-- C4: ExpectJSONBranch fails whenever a looked-up key is missing at
the current depth; reaching the end of the path passes (presence only);
a non-object value at the second-to-last position is compared by its
string form against the final segment, failing exactly on mismatch; and
the two concrete example paths behave as stated. -/
theorem expectJSONBranch_walk_spec :
    (∀ (nodes : List String) (m : List (String × GoValue)) (i : Nat)
      (h : i < nodes.length), lookupVals m (nodes.get ⟨i, h⟩) = none →
      branchGo nodes i m = .error ("Missing node \x27" ++ nodes.get ⟨i, h⟩ ++ "\x27"))
    ∧ (∀ (nodes : List String) (m : List (String × GoValue)) (i : Nat),
      nodes.length ≤ i → branchGo nodes i m = .ok ())
    ∧ (∀ (nodes : List String) (m : List (String × GoValue)) (i : Nat) (v : GoValue)
      (h : i < nodes.length) (h2 : i + 2 = nodes.length),
      lookupVals m (nodes.get ⟨i, h⟩) = some v → v.asMap = none →
      branchGo nodes i m =
        (if goFmt v = nodes.get ⟨i + 1, by omega⟩ then .ok ()
         else .error ("Wrong value: expected \x27" ++ nodes.get ⟨i + 1, by omega⟩
           ++ "\x27, got \x27" ++ goFmt v ++ "\x27")))
    ∧ ExpectJSONBranch ["a", "b", "c"] respDummy
        (some (.vMap [("a", GoValue.vMap [("b", GoValue.vMap [("c", GoValue.vNum 5)])])]))
        = none
    ∧ ExpectJSONBranch ["a", "b", "y"] respDummy
        (some (.vMap [("a", GoValue.vMap [("b", GoValue.vStr "x")])]))
        = some "Wrong value: expected \x27y\x27, got \x27x\x27" := by
  refine ⟨fun nodes m i h hm => branchGo_miss nodes m i h hm,
    fun nodes m i h => branchGo_end nodes m i h,
    fun nodes m i v h h2 hl hc => branchGo_compare nodes m i v h h2 hl hc,
    ?_, ?_⟩
  · rw [expectJSONBranch_eval,
      branchGo_advance ["a", "b", "c"]
        [("a", GoValue.vMap [("b", GoValue.vMap [("c", GoValue.vNum 5)])])]
        [("b", GoValue.vMap [("c", GoValue.vNum 5)])]
        0 (GoValue.vMap [("b", GoValue.vMap [("c", GoValue.vNum 5)])]) (by decide) rfl rfl,
      branchGo_advance ["a", "b", "c"]
        [("b", GoValue.vMap [("c", GoValue.vNum 5)])] [("c", GoValue.vNum 5)]
        1 (GoValue.vMap [("c", GoValue.vNum 5)]) (by decide) rfl rfl,
      branchGo_skip ["a", "b", "c"] [("c", GoValue.vNum 5)]
        2 (GoValue.vNum 5) (by decide) rfl rfl (by decide),
      branchGo_end ["a", "b", "c"] [("c", GoValue.vNum 5)] 3 (by decide)]
  · rw [expectJSONBranch_eval,
      branchGo_advance ["a", "b", "y"]
        [("a", GoValue.vMap [("b", GoValue.vStr "x")])] [("b", GoValue.vStr "x")]
        0 (GoValue.vMap [("b", GoValue.vStr "x")]) (by decide) rfl rfl,
      branchGo_compare ["a", "b", "y"] [("b", GoValue.vStr "x")]
        1 (GoValue.vStr "x") (by decide) (by decide) rfl rfl]
    rfl

theorem expectJSONBranch_walk_spec_witness :
    branchGo ["a", "b"] 0 [] =
      .error ("Missing node \x27" ++ ["a", "b"].get ⟨0, by decide⟩ ++ "\x27") :=
  expectJSONBranch_walk_spec.1 ["a", "b"] [] 0 (by decide) rfl

/-- C10: in ExpectJSONBranch, a key resolving to a non-object value at
a position earlier than the second-to-last neither fails nor stops the
walk: the map cursor is not advanced and the next key is looked up in
that same unchanged map. -/
theorem branch_nonobject_mid_continues :
    ∀ (nodes : List String) (i : Nat) (m : List (String × GoValue)) (v : GoValue)
      (h1 : i < nodes.length), i + 2 < nodes.length →
      lookupVals m (nodes.get ⟨i, h1⟩) = some v → v.asMap = none →
      branchGo nodes i m = branchGo nodes (i + 1) m := by
  intro nodes i m v h1 h2 hl hc
  exact branchGo_skip nodes m i v h1 hl hc (by omega)

theorem branch_nonobject_mid_continues_witness :
    branchGo ["a", "b", "c"] 0 [("a", GoValue.vStr "z")]
      = branchGo ["a", "b", "c"] 1 [("a", GoValue.vStr "z")] :=
  branch_nonobject_mid_continues ["a", "b", "c"] 0 [("a", GoValue.vStr "z")]
    (GoValue.vStr "z") (by decide) (by decide) rfl rfl

/-- C8: AddCall normalizes the body argument: a value already
implementing the Body contract passes through unchanged, a non-empty
raw string becomes a StringBody holding it, and the empty string or any
other value becomes a NoopBody; the constructed call is appended to the
call list. -/
theorem addCall_body_normalization :
    (∀ (t : Tester) (n m : String) (q : Tmpl) (b : BodyV),
      ((AddCall t n m q (.typed b)).2).Body = b)
    ∧ (∀ (t : Tester) (n m : String) (q s : Tmpl), s ≠ Tmpl.lit "" →
      ((AddCall t n m q (.rawString s)).2).Body = .stringBody s)
    ∧ (∀ (t : Tester) (n m : String) (q : Tmpl),
      ((AddCall t n m q (.rawString (Tmpl.lit ""))).2).Body = .noopBody)
    ∧ (∀ (t : Tester) (n m : String) (q : Tmpl),
      ((AddCall t n m q .other).2).Body = .noopBody)
    ∧ (∀ (t : Tester) (n m : String) (q : Tmpl) (b : BodyArg),
      (AddCall t n m q b).1.Calls = t.Calls ++ [(AddCall t n m q b).2]) := by
  refine ⟨fun t n m q b => rfl, ?_, fun t n m q => rfl, fun t n m q => rfl,
    fun t n m q b => rfl⟩
  intro t n m q s hs
  simp [AddCall, hs]

theorem addCall_body_normalization_witness :
    ((AddCall (NewTester []) "n" "GET" (Tmpl.lit "/") (.rawString (Tmpl.lit "x"))).2).Body
      = .stringBody (Tmpl.lit "x") :=
  addCall_body_normalization.2.1 (NewTester []) "n" "GET" (Tmpl.lit "/")
    (Tmpl.lit "x") (by decide)

theorem applyTemplate_events (v : Values) (t : Tmpl) :
    ∀ e ∈ (applyTemplate v t).2, ∃ msg, e = Ev.report msg := by
  intro e he
  cases h : Apply v t with
  | error err =>
    simp [applyTemplate, h] at he
    exact ⟨err, he⟩
  | ok b => simp [applyTemplate, h] at he

theorem getBodyR_events (b : BodyV) (v : Values) :
    ∀ e ∈ (b.getBodyR v).2, ∃ msg, e = Ev.report msg := by
  cases b with
  | noopBody => intro e he; simp [BodyV.getBodyR] at he
  | stringBody s =>
    intro e he
    exact applyTemplate_events v s e (by simpa [BodyV.getBodyR] using he)
  | custom c => intro e he; simp [BodyV.getBodyR] at he

theorem renderHeaders_events (v : Values) (hs : List (Tmpl × Tmpl)) :
    ∀ e ∈ (renderHeaders v hs).2, ∃ msg, e = Ev.report msg := by
  induction hs with
  | nil => intro e he; simp [renderHeaders] at he
  | cons p rest ih =>
    obtain ⟨k, val⟩ := p
    intro e he
    simp only [renderHeaders, List.mem_append] at he
    rcases he with (h1 | h2) | h3
    · exact applyTemplate_events v k e h1
    · exact applyTemplate_events v val e h2
    · exact ih e h3

theorem runChecks_events (name : String) (cks : List CheckerF) (resp : Response)
    (bt : Option GoValue) :
    ∀ e ∈ runChecks name cks resp bt,
      (∃ i, e = Ev.checkerRun name i) ∨ ∃ msg, e = Ev.report msg := by
  intro e he
  unfold runChecks at he
  rw [List.mem_flatMap] at he
  obtain ⟨p, hp, hme⟩ := he
  cases h : p.2 resp bt with
  | none =>
    rw [h] at hme
    simp at hme
    exact Or.inl ⟨p.1, hme⟩
  | some msg =>
    rw [h] at hme
    simp at hme
    rcases hme with h1 | h2
    · exact Or.inl ⟨p.1, h1⟩
    · exact Or.inr ⟨name ++ ": " ++ msg, h2⟩

theorem storePhase_events (v : Values) (c : Call) (resp : Response) :
    ∀ e ∈ (storePhase v c resp).2,
      e = Ev.bodyRead c.Name ∨ e = Ev.storeWrite c.Name
      ∨ (∃ i, e = Ev.checkerRun c.Name i) ∨ ∃ msg, e = Ev.report msg := by
  intro e he
  unfold storePhase at he
  cases hb : resp.body with
  | absent =>
    rw [hb] at he
    rcases runChecks_events c.Name c.checkers resp none e he with h | h
    · exact Or.inr (Or.inr (Or.inl h))
    · exact Or.inr (Or.inr (Or.inr h))
  | text bt =>
    rw [hb] at he
    cases hro : c.respObject with
    | some dec =>
      rw [hro] at he
      by_cases hd : dec bt = true
      · simp only [hd, if_true, List.cons_append, List.nil_append, List.mem_cons] at he
        rcases he with h1 | h2 | h3
        · exact Or.inl h1
        · exact Or.inr (Or.inl h2)
        · rcases runChecks_events c.Name c.checkers resp bt e h3 with h | h
          · exact Or.inr (Or.inr (Or.inl h))
          · exact Or.inr (Or.inr (Or.inr h))
      · simp [hd] at he
        rcases he with h1 | h2
        · exact Or.inl h1
        · exact Or.inr (Or.inr (Or.inr ⟨_, h2⟩))
    | none =>
      rw [hro] at he
      simp only [List.cons_append, List.nil_append, List.mem_cons] at he
      rcases he with h1 | h2 | h3
      · exact Or.inl h1
      · exact Or.inr (Or.inl h2)
      · rcases runChecks_events c.Name c.checkers resp bt e h3 with h | h
        · exact Or.inr (Or.inr (Or.inl h))
        · exact Or.inr (Or.inr (Or.inr h))

theorem storePhase_values_eq (v : Values) (c : Call) (resp : Response) :
    (storePhase v c resp).1 =
      (match resp.body with
       | .absent => v
       | .text bt =>
         if respDecodeOk c bt then insertVal v c.Name (decodeGeneric bt) else v) := by
  unfold storePhase respDecodeOk
  cases hb : resp.body with
  | absent => rfl
  | text bt =>
    cases hro : c.respObject with
    | some dec => by_cases hd : dec bt = true <;> simp [hd]
    | none => simp

theorem runCall_values_eq (env : Env) (v : Values) (c : Call) :
    (runCall env v c).1 =
      (if producesEntry env v c then insertVal v c.Name (storedVal env v c) else v) := by
  unfold runCall producesEntry storedVal responseOf
  cases hB : (c.Body.getBodyR v).1 with
  | error e => simp
  | ok bs =>
    by_cases hR : env.newRequestOk c.Method (applyTemplate v c.QueryStr).1 = true
    · simp only [hR, if_true]
      rw [storePhase_values_eq]
      cases hb : (env.serve (builtRequest v c bs)).body with
      | absent => simp
      | text bt => by_cases hd : respDecodeOk c bt = true <;> simp [hd]
    · simp [hR]

theorem runCall_values_other (env : Env) (v : Values) (c : Call) (n : String)
    (h : n ≠ c.Name) :
    lookupVals (runCall env v c).1 n = lookupVals v n := by
  rw [runCall_values_eq]
  split
  · exact lookup_insertVal_ne v c.Name n _ h
  · rfl

theorem runCalls_values_other (env : Env) (cs : List Call) (v : Values) (n : String)
    (h : ∀ c ∈ cs, c.Name ≠ n) :
    lookupVals (runCalls env cs v).1 n = lookupVals v n := by
  induction cs generalizing v with
  | nil => rfl
  | cons c rest ih =>
    simp only [runCalls]
    rw [ih _ (fun x hx => h x (List.mem_cons_of_mem c hx))]
    exact runCall_values_other env v c n
      (fun hh => h c (List.mem_cons_self c rest) hh.symm)

theorem runCalls_append2 (env : Env) (l1 l2 : List Call) (v : Values) :
    runCalls env (l1 ++ l2) v =
      ((runCalls env l2 (runCalls env l1 v).1).1,
        (runCalls env l1 v).2 ++ (runCalls env l2 (runCalls env l1 v).1).2) := by
  induction l1 generalizing v with
  | nil => simp [runCalls]
  | cons c rest ih => simp [runCalls, ih, List.append_assoc]

theorem mem_take_index {α : Type} (l : List α) (n : Nat) (a : α) (h : a ∈ l.take n) :
    ∃ i, ∃ hi : i < l.length, i < n ∧ l.get ⟨i, hi⟩ = a := by
  induction l generalizing n with
  | nil => simp at h
  | cons x rest ih =>
    cases n with
    | zero => simp at h
    | succ n2 =>
      simp only [List.take, List.mem_cons] at h
      rcases h with h1 | h2
      · exact ⟨0, by simp, by omega, by simp [h1]⟩
      · obtain ⟨i, hi, hlt, hg⟩ := ih n2 h2
        refine ⟨i + 1, by simp; omega, by omega, ?_⟩
        simpa using hg

theorem mem_drop_index {α : Type} (l : List α) (n : Nat) (a : α) (h : a ∈ l.drop n) :
    ∃ i, ∃ hi : i < l.length, n ≤ i ∧ l.get ⟨i, hi⟩ = a := by
  induction l generalizing n with
  | nil => simp at h
  | cons x rest ih =>
    cases n with
    | zero =>
      obtain ⟨⟨i, hi⟩, hg⟩ := List.mem_iff_get.mp h
      exact ⟨i, hi, by omega, hg⟩
    | succ n2 =>
      simp only [List.drop] at h
      obtain ⟨i, hi, hle, hg⟩ := ih n2 h
      refine ⟨i + 1, by simp; omega, by omega, ?_⟩
      simpa using hg

theorem name_ne_of_nodup (calls : List Call) (h : (calls.map Call.Name).Nodup)
    (i j : Nat) (hi : i < calls.length) (hj : j < calls.length) (hij : i ≠ j) :
    (calls.get ⟨i, hi⟩).Name ≠ (calls.get ⟨j, hj⟩).Name := by
  intro heq
  have hlen : (calls.map Call.Name).length = calls.length := by simp
  have h1 : (calls.map Call.Name).get ⟨i, by omega⟩
      = (calls.map Call.Name).get ⟨j, by omega⟩ := by
    simpa using heq
  have h2 := (List.Nodup.get_inj_iff h).mp h1
  simp at h2
  exact hij h2

theorem take_succ_call (calls : List Call) (j : Nat) (hj : j < calls.length) :
    calls.take (j + 1) = calls.take j ++ [calls.get ⟨j, hj⟩] := by
  rw [List.take_succ]
  congr 1
  rw [List.getElem?_eq_getElem hj]
  simp

theorem stateAt_succ (env : Env) (calls : List Call) (j : Nat) (hj : j < calls.length) :
    stateAt env calls (j + 1) = (runCall env (stateAt env calls j) (calls.get ⟨j, hj⟩)).1 := by
  unfold stateAt
  rw [take_succ_call calls j hj, runCalls_append2]
  simp [runCalls]

theorem lookup_stateAt_before (env : Env) (calls : List Call)
    (h : (calls.map Call.Name).Nodup) (j : Nat) (hj : j < calls.length)
    (i : Nat) (hij : i ≤ j) :
    lookupVals (stateAt env calls i) (calls.get ⟨j, hj⟩).Name = none := by
  unfold stateAt
  rw [runCalls_values_other]
  · rfl
  · intro c hc
    obtain ⟨i2, hi2, hlt, hg⟩ := mem_take_index calls i c hc
    rw [← hg]
    exact name_ne_of_nodup calls h i2 j hi2 hj (by omega)

theorem lookup_stateAt_at (env : Env) (calls : List Call)
    (h : (calls.map Call.Name).Nodup) (j : Nat) (hj : j < calls.length) :
    lookupVals (stateAt env calls (j + 1)) (calls.get ⟨j, hj⟩).Name =
      (if producesEntry env (stateAt env calls j) (calls.get ⟨j, hj⟩)
       then some (storedVal env (stateAt env calls j) (calls.get ⟨j, hj⟩)) else none) := by
  rw [stateAt_succ env calls j hj, runCall_values_eq]
  split
  · exact lookup_insertVal_self _ _ _
  · exact lookup_stateAt_before env calls h j hj j (le_refl j)

theorem lookup_stateAt_after (env : Env) (calls : List Call)
    (h : (calls.map Call.Name).Nodup) (j : Nat) (hj : j < calls.length)
    (i : Nat) (hji : j < i) :
    lookupVals (stateAt env calls i) (calls.get ⟨j, hj⟩).Name =
      lookupVals (stateAt env calls (j + 1)) (calls.get ⟨j, hj⟩).Name := by
  have hsplit : calls.take i = calls.take (j + 1) ++ (calls.drop (j + 1)).take (i - (j + 1)) := by
    rw [← List.take_add]
    congr 1
    omega
  show lookupVals (runCalls env (calls.take i) []).1 _ = _
  rw [hsplit, runCalls_append2]
  exact runCalls_values_other env _ _ _ (by
    intro c hc
    have hc2 : c ∈ calls.drop (j + 1) := List.take_subset _ _ hc
    obtain ⟨i2, hi2, hle, hg⟩ := mem_drop_index calls (j + 1) c hc2
    rw [← hg]
    exact name_ne_of_nodup calls h i2 j hi2 hj (by omega))

theorem count_storeWrite_reports {l : List Ev} (h : ∀ e ∈ l, ∃ msg, e = Ev.report msg)
    (n : String) : l.count (Ev.storeWrite n) = 0 := by
  rw [List.count_eq_zero]
  intro hmem
  obtain ⟨msg, hm⟩ := h _ hmem
  simp at hm

theorem storeWrite_not_in_reports {l : List Ev} (h : ∀ e ∈ l, ∃ msg, e = Ev.report msg)
    (n : String) : Ev.storeWrite n ∉ l := by
  intro hmem
  obtain ⟨msg, hm⟩ := h _ hmem
  simp at hm

theorem runChecks_count_storeWrite (name : String) (cks : List CheckerF) (resp : Response)
    (bt : Option GoValue) (n : String) :
    (runChecks name cks resp bt).count (Ev.storeWrite n) = 0 := by
  rw [List.count_eq_zero]
  intro hmem
  rcases runChecks_events name cks resp bt _ hmem with ⟨i, hi⟩ | ⟨msg, hm⟩ <;> simp_all

theorem storePhase_count_storeWrite (v : Values) (c : Call) (resp : Response) (n : String) :
    ((storePhase v c resp).2).count (Ev.storeWrite n) ≤ (if n = c.Name then 1 else 0) := by
  unfold storePhase
  cases hb : resp.body with
  | absent => simp [runChecks_count_storeWrite]
  | text bt =>
    cases hro : c.respObject with
    | some dec =>
      by_cases hd : dec bt = true
      · by_cases hn : n = c.Name <;>
          simp [hd, hn, List.count_cons, List.count_append, runChecks_count_storeWrite]
      · by_cases hn : n = c.Name <;> simp [hd, hn, List.count_cons]
    | none =>
      by_cases hn : n = c.Name <;>
        simp [hn, List.count_cons, List.count_append, runChecks_count_storeWrite]

theorem runCall_count_storeWrite (env : Env) (v : Values) (c : Call) (n : String) :
    ((runCall env v c).2).count (Ev.storeWrite n) ≤ (if n = c.Name then 1 else 0) := by
  have hB0 : ((c.Body.getBodyR v).2).count (Ev.storeWrite n) = 0 :=
    count_storeWrite_reports (getBodyR_events c.Body v) n
  have hU0 : ((applyTemplate v c.QueryStr).2).count (Ev.storeWrite n) = 0 :=
    count_storeWrite_reports (applyTemplate_events v c.QueryStr) n
  have hH0 : ((renderHeaders v c.headers).2).count (Ev.storeWrite n) = 0 :=
    count_storeWrite_reports (renderHeaders_events v c.headers) n
  unfold runCall
  cases hBr : (c.Body.getBodyR v).1 with
  | error e =>
    simp only [List.count_cons, List.count_append, hB0]
    split <;> simp_all [List.count_cons]
  | ok bs =>
    by_cases hR : env.newRequestOk c.Method (applyTemplate v c.QueryStr).1 = true
    · have hP := storePhase_count_storeWrite v c (env.serve (builtRequest v c bs)) n
      simp only [hR, if_true, List.count_cons, List.count_append, hB0, hU0, hH0]
      split <;> simp_all [List.count_cons, List.count_append]
    · simp only [hR, if_false, List.count_cons, List.count_append, hB0, hU0]
      split <;> simp_all [List.count_cons]

theorem runCalls_count_storeWrite_zero (env : Env) (cs : List Call) (v : Values) (n : String)
    (h : ∀ c ∈ cs, c.Name ≠ n) :
    ((runCalls env cs v).2).count (Ev.storeWrite n) = 0 := by
  induction cs generalizing v with
  | nil => simp [runCalls]
  | cons c rest ih =>
    simp only [runCalls, List.count_append]
    have h1 := runCall_count_storeWrite env v c n
    rw [if_neg (fun hh => h c (List.mem_cons_self c rest) hh.symm)] at h1
    have h2 := ih (runCall env v c).1 (fun x hx => h x (List.mem_cons_of_mem _ hx))
    omega

theorem runCalls_count_storeWrite_le_one (env : Env) (cs : List Call) (v : Values)
    (n : String) (h : (cs.map Call.Name).Nodup) :
    ((runCalls env cs v).2).count (Ev.storeWrite n) ≤ 1 := by
  induction cs generalizing v with
  | nil => simp [runCalls]
  | cons c rest ih =>
    simp only [runCalls, List.count_append]
    rw [List.map_cons, List.nodup_cons] at h
    by_cases hn : n = c.Name
    · have h1 := runCall_count_storeWrite env v c n
      rw [if_pos hn] at h1
      have h2 : ((runCalls env rest (runCall env v c).1).2).count (Ev.storeWrite n) = 0 := by
        refine runCalls_count_storeWrite_zero env rest _ n ?_
        intro x hx heq
        refine h.1 ?_
        have hmm : x.Name ∈ rest.map Call.Name := List.mem_map_of_mem Call.Name hx
        rw [heq, hn] at hmm
        exact hmm
      omega
    · have h1 := runCall_count_storeWrite env v c n
      rw [if_neg hn] at h1
      have h2 := ih (runCall env v c).1 h.2
      omega

theorem storePhase_trace_absent (v : Values) (c : Call) (resp : Response)
    (hb : resp.body = .absent) :
    (storePhase v c resp).2 = runChecks c.Name c.checkers resp none := by
  unfold storePhase
  rw [hb]

theorem storePhase_trace_write (v : Values) (c : Call) (resp : Response)
    (bt : Option GoValue) (hb : resp.body = .text bt) (hd : respDecodeOk c bt = true) :
    (storePhase v c resp).2 =
      Ev.bodyRead c.Name :: Ev.storeWrite c.Name :: runChecks c.Name c.checkers resp bt := by
  unfold storePhase
  rw [hb]
  cases hro : c.respObject with
  | some dec =>
    have hd2 : dec bt = true := by
      simp only [respDecodeOk, hro] at hd
      exact hd
    simp [hd2]
  | none => rfl

theorem storePhase_trace_skip (v : Values) (c : Call) (resp : Response)
    (bt : Option GoValue) (dec : Option GoValue → Bool) (hb : resp.body = .text bt)
    (hro : c.respObject = some dec) (hd : dec bt = false) :
    (storePhase v c resp).2 =
      [Ev.bodyRead c.Name, Ev.report "json: cannot unmarshal body into respObject"] := by
  unfold storePhase
  rw [hb, hro]
  simp [hd]

theorem runCall_trace_error (env : Env) (v : Values) (c : Call) (e : String)
    (hBr : (c.Body.getBodyR v).1 = .error e) :
    (runCall env v c).2 =
      Ev.callStart c.Name :: ((c.Body.getBodyR v).2 ++ [Ev.report e]) := by
  unfold runCall
  rw [hBr]

theorem runCall_trace_noreq (env : Env) (v : Values) (c : Call) (bs : String)
    (hBr : (c.Body.getBodyR v).1 = .ok bs)
    (hR : env.newRequestOk c.Method (applyTemplate v c.QueryStr).1 = false) :
    (runCall env v c).2 =
      Ev.callStart c.Name ::
        ((c.Body.getBodyR v).2 ++ (applyTemplate v c.QueryStr).2
          ++ [Ev.report ("net/http: invalid request " ++ c.Method ++ " "
              ++ (applyTemplate v c.QueryStr).1)]) := by
  unfold runCall
  rw [hBr, hR]
  rfl

theorem runCall_trace_served (env : Env) (v : Values) (c : Call) (bs : String)
    (hBr : (c.Body.getBodyR v).1 = .ok bs)
    (hR : env.newRequestOk c.Method (applyTemplate v c.QueryStr).1 = true) :
    (runCall env v c).2 =
      Ev.callStart c.Name ::
        ((c.Body.getBodyR v).2 ++ (applyTemplate v c.QueryStr).2
          ++ (renderHeaders v c.headers).2
          ++ [Ev.served c.Name (applyTemplate v c.QueryStr).1]
          ++ (storePhase v c (env.serve (builtRequest v c bs))).2) := by
  unfold runCall
  rw [hBr, hR]
  rfl

theorem storePhase_write_shape (v : Values) (c : Call) (resp : Response)
    (hw : Ev.storeWrite c.Name ∈ (storePhase v c resp).2) :
    ∃ post, (storePhase v c resp).2 = Ev.bodyRead c.Name :: Ev.storeWrite c.Name :: post
      ∧ ∀ e ∈ post, (∃ i, e = Ev.checkerRun c.Name i) ∨ ∃ msg, e = Ev.report msg := by
  cases hb : resp.body with
  | absent =>
    exfalso
    rw [storePhase_trace_absent v c resp hb] at hw
    rcases runChecks_events c.Name c.checkers resp none _ hw with ⟨i, hi⟩ | ⟨msg, hm⟩
    · simp at hi
    · simp at hm
  | text bt =>
    cases hd : respDecodeOk c bt with
    | true =>
      exact ⟨runChecks c.Name c.checkers resp bt, storePhase_trace_write v c resp bt hb hd,
        runChecks_events c.Name c.checkers resp bt⟩
    | false =>
      exfalso
      cases hro : c.respObject with
      | none => simp [respDecodeOk, hro] at hd
      | some dec =>
        have hd2 : dec bt = false := by
          simp only [respDecodeOk, hro] at hd
          exact hd
        rw [storePhase_trace_skip v c resp bt dec hb hro hd2] at hw
        simp at hw

theorem runCall_write_shape (env : Env) (v : Values) (c : Call)
    (hw : Ev.storeWrite c.Name ∈ (runCall env v c).2) :
    ∃ pre post,
      (runCall env v c).2 = pre ++ Ev.bodyRead c.Name :: Ev.storeWrite c.Name :: post
      ∧ ∀ e ∈ pre, ∀ idx, e ≠ Ev.checkerRun c.Name idx := by
  cases hBr : (c.Body.getBodyR v).1 with
  | error e =>
    exfalso
    rw [runCall_trace_error env v c e hBr] at hw
    simp only [List.mem_cons, List.mem_append, List.mem_singleton] at hw
    rcases hw with h1 | h2 | h3
    · simp at h1
    · exact storeWrite_not_in_reports (getBodyR_events c.Body v) c.Name h2
    · simp at h3
  | ok bs =>
    cases hR : env.newRequestOk c.Method (applyTemplate v c.QueryStr).1 with
    | false =>
      exfalso
      rw [runCall_trace_noreq env v c bs hBr hR] at hw
      simp only [List.mem_cons, List.mem_append, List.mem_singleton] at hw
      rcases hw with h1 | (h2 | h3) | h4
      · simp at h1
      · exact storeWrite_not_in_reports (getBodyR_events c.Body v) c.Name h2
      · exact storeWrite_not_in_reports (applyTemplate_events v c.QueryStr) c.Name h3
      · simp at h4
    | true =>
      rw [runCall_trace_served env v c bs hBr hR] at hw ⊢
      simp only [List.mem_cons, List.mem_append, List.mem_singleton] at hw
      rcases hw with h1 | (((h2 | h3) | h4) | h5) | h6
      · simp at h1
      · exact absurd h2 (storeWrite_not_in_reports (getBodyR_events c.Body v) c.Name)
      · exact absurd h3 (storeWrite_not_in_reports (applyTemplate_events v c.QueryStr) c.Name)
      · exact absurd h4 (storeWrite_not_in_reports (renderHeaders_events v c.headers) c.Name)
      · simp at h5
      · obtain ⟨post, hpost, hpostev⟩ := storePhase_write_shape v c _ h6
        refine ⟨Ev.callStart c.Name ::
          ((c.Body.getBodyR v).2 ++ (applyTemplate v c.QueryStr).2
            ++ (renderHeaders v c.headers).2
            ++ [Ev.served c.Name (applyTemplate v c.QueryStr).1]), post, ?_, ?_⟩
        · rw [hpost]
          simp
        · intro e he idx
          simp only [List.mem_cons, List.mem_append, List.mem_singleton,
            List.not_mem_nil, or_false] at he
          rcases he with he1 | ((he2 | he3) | he4) | he5
          · subst he1; simp
          · obtain ⟨m2, hm2⟩ := getBodyR_events c.Body v e he2
            subst hm2; simp
          · obtain ⟨m2, hm2⟩ := applyTemplate_events v c.QueryStr e he3
            subst hm2; simp
          · obtain ⟨m2, hm2⟩ := renderHeaders_events v c.headers e he4
            subst hm2; simp
          · subst he5; simp

theorem no_start_of_reports {l : List Ev} (h : ∀ e ∈ l, ∃ msg, e = Ev.report msg) :
    l.filterMap evStartName = [] := by
  rw [List.filterMap_eq_nil_iff]
  intro e he
  obtain ⟨m, hm⟩ := h e he
  subst hm
  rfl

theorem storePhase_no_start (v : Values) (c : Call) (resp : Response) :
    ((storePhase v c resp).2).filterMap evStartName = [] := by
  rw [List.filterMap_eq_nil_iff]
  intro e he
  rcases storePhase_events v c resp e he with h | h | ⟨i, h⟩ | ⟨m, h⟩ <;> subst h <;> rfl

theorem runCall_filterMap_start (env : Env) (v : Values) (c : Call) :
    ((runCall env v c).2).filterMap evStartName = [c.Name] := by
  have hB := no_start_of_reports (getBodyR_events c.Body v)
  have hU := no_start_of_reports (applyTemplate_events v c.QueryStr)
  have hH := no_start_of_reports (renderHeaders_events v c.headers)
  cases hBr : (c.Body.getBodyR v).1 with
  | error e =>
    rw [runCall_trace_error env v c e hBr]
    simp [List.filterMap_cons, List.filterMap_append, hB, evStartName]
  | ok bs =>
    cases hR : env.newRequestOk c.Method (applyTemplate v c.QueryStr).1 with
    | false =>
      rw [runCall_trace_noreq env v c bs hBr hR]
      simp [List.filterMap_cons, List.filterMap_append, hB, hU, evStartName]
    | true =>
      rw [runCall_trace_served env v c bs hBr hR]
      simp [List.filterMap_cons, List.filterMap_append, hB, hU, hH,
        storePhase_no_start, evStartName]

theorem runCalls_filterMap_start (env : Env) (cs : List Call) (v : Values) :
    ((runCalls env cs v).2).filterMap evStartName = cs.map Call.Name := by
  induction cs generalizing v with
  | nil => rfl
  | cons c rest ih =>
    simp only [runCalls, List.filterMap_append]
    rw [runCall_filterMap_start, ih]
    rfl

/-- C6: Run never aborts early — every Call in the list is started, in
list order, regardless of render, request-construction, decode or
checker failures in earlier calls — and running a Tester with zero
calls completes with an empty store and no reported failure. -/
theorem run_executes_every_call :
    (∀ (env : Env) (calls : List Call),
      ((Run env calls).2).filterMap evStartName = calls.map Call.Name)
    ∧ (∀ env : Env, Run env [] = ([], [])) :=
  ⟨fun env calls => runCalls_filterMap_start env calls [], fun _ => rfl⟩

/-- C9: whenever a call obtains a response that has a body and its
typed decode step (when registered) succeeds, Run writes the ValueStore
entry under the name of the call — the best-effort generic decode of the
body — and for any body that is not a JSON object that stored value is
the nil map (the generic decode error being discarded), so the key is
present with a null value rather than absent. -/
theorem run_store_entry_with_null_fallback :
    (∀ (env : Env) (v : Values) (c : Call) (r : Response) (bt : Option GoValue),
      responseOf env v c = some r → r.body = .text bt → respDecodeOk c bt = true →
      lookupVals (runCall env v c).1 c.Name = some (decodeGeneric bt))
    ∧ (∀ bt : Option GoValue, (∀ m, bt ≠ some (.vMap m)) → decodeGeneric bt = .vNilMap) := by
  constructor
  · intro env v c r bt hr hb hd
    have hp : producesEntry env v c = true := by
      simp [producesEntry, hr, hb, hd]
    have hs : storedVal env v c = decodeGeneric bt := by
      simp [storedVal, hr, hb]
    rw [runCall_values_eq, if_pos hp, hs]
    exact lookup_insertVal_self v c.Name (decodeGeneric bt)
  · intro bt h
    cases bt with
    | none => rfl
    | some g =>
      cases g with
      | vMap m => exact absurd rfl (h m)
      | vNull => rfl
      | vBool b => rfl
      | vNum n => rfl
      | vStr s => rfl
      | vArr xs => rfl
      | vNilMap => rfl
      | vMapSS m => rfl

theorem run_store_entry_with_null_fallback_witness :
    lookupVals (runCall badJsonEnv [] plainCall).1 plainCall.Name
      = some (decodeGeneric none) :=
  run_store_entry_with_null_fallback.1 badJsonEnv [] plainCall
    { statusCode := 200, body := .text none } none rfl rfl rfl

/-- C2 counterexample: a call whose query-string template fails to
render is not skipped — the failure is reported, yet the handler is
still invoked, with the empty rendered URL, contradicting that the
runner continues to the next Call without issuing the request. -/
theorem render_failure_request_still_issued :
    Ev.report "template: parse error" ∈ (Run absentBodyEnv [malformedQueryCall]).2
    ∧ Ev.served "c" "" ∈ (Run absentBodyEnv [malformedQueryCall]).2 := by
  constructor <;> decide

/-- C2 (amended): a query-string render failure is reported as a
per-call failure and rendering still returns a usable empty string, but
the call is not skipped: whenever request construction accepts the
empty URL, the request is issued with the empty rendered URL. -/
theorem render_failure_reported_and_call_proceeds :
    ∀ (env : Env) (v : Values) (c : Call) (e : String) (bs : String),
      (c.Body.getBodyR v).1 = .ok bs →
      Apply v c.QueryStr = .error e →
      env.newRequestOk c.Method "" = true →
      applyTemplate v c.QueryStr = ("", [Ev.report e])
      ∧ Ev.report e ∈ (runCall env v c).2
      ∧ Ev.served c.Name "" ∈ (runCall env v c).2 := by
  intro env v c e bs hB hA hN
  have hT : applyTemplate v c.QueryStr = ("", [Ev.report e]) := by
    simp [applyTemplate, hA]
  have hR : env.newRequestOk c.Method (applyTemplate v c.QueryStr).1 = true := by
    rw [hT]
    exact hN
  have htr := runCall_trace_served env v c bs hB hR
  simp only [hT] at htr
  refine ⟨hT, ?_, ?_⟩
  · rw [htr]
    simp
  · rw [htr]
    simp

theorem render_failure_reported_witness :
    applyTemplate [] malformedQueryCall.QueryStr
      = ("", [Ev.report "template: parse error"])
    ∧ Ev.report "template: parse error" ∈ (runCall absentBodyEnv [] malformedQueryCall).2
    ∧ Ev.served malformedQueryCall.Name "" ∈ (runCall absentBodyEnv [] malformedQueryCall).2 :=
  render_failure_reported_and_call_proceeds absentBodyEnv [] malformedQueryCall
    "template: parse error" "" rfl rfl rfl

/-- C1 counterexample: a call whose response has a body (its read is
traced) but whose registered typed decode fails produces no ValueStore
entry at all, contradicting that after call i the store holds an entry
for every earlier call that produced a response body. -/
theorem store_entry_skipped_on_typed_decode_failure :
    Ev.bodyRead "c1" ∈ (Run decodeFailEnv [decodeFailCall]).2
    ∧ lookupVals (Run decodeFailEnv [decodeFailCall]).1 "c1" = none :=
  ⟨by decide, rfl⟩

/-- C1 (amended): starting from the empty store with pairwise-distinct
call names, after the first i calls the store maps the name of each
call j earlier than i to an entry exactly when that call, run against
the store state it saw, obtained a response with a body whose typed
decode step (when registered) succeeded — the entry being the
best-effort generic decode of that body — and holds no entry for any
call not yet executed; moreover each name is written at most once per
run, and the write of a call happens immediately after its response body is
read and before any of its checkers run. -/
theorem run_store_discipline :
    ∀ (env : Env) (calls : List Call), (calls.map Call.Name).Nodup →
    (∀ (i j : Nat) (hj : j < calls.length), j < i → i ≤ calls.length →
      lookupVals (runCalls env (calls.take i) []).1 (calls.get ⟨j, hj⟩).Name =
        (if producesEntry env (stateAt env calls j) (calls.get ⟨j, hj⟩)
         then some (storedVal env (stateAt env calls j) (calls.get ⟨j, hj⟩)) else none))
    ∧ (∀ (i k : Nat) (hk : k < calls.length), i ≤ k →
      lookupVals (runCalls env (calls.take i) []).1 (calls.get ⟨k, hk⟩).Name = none)
    ∧ (∀ n : String, ((Run env calls).2).count (Ev.storeWrite n) ≤ 1)
    ∧ (∀ (v : Values) (c : Call), Ev.storeWrite c.Name ∈ (runCall env v c).2 →
      ∃ pre post,
        (runCall env v c).2 = pre ++ Ev.bodyRead c.Name :: Ev.storeWrite c.Name :: post
        ∧ ∀ e ∈ pre, ∀ idx, e ≠ Ev.checkerRun c.Name idx) := by
  intro env calls h
  refine ⟨?_, ?_, ?_, ?_⟩
  · intro i j hj hji hi
    show lookupVals (stateAt env calls i) (calls.get ⟨j, hj⟩).Name = _
    rw [lookup_stateAt_after env calls h j hj i hji, lookup_stateAt_at env calls h j hj]
  · intro i k hk hik
    exact lookup_stateAt_before env calls h k hk i hik
  · intro n
    exact runCalls_count_storeWrite_le_one env calls [] n h
  · intro v c hw
    exact runCall_write_shape env v c hw

theorem run_store_discipline_witness :
    lookupVals (runCalls idEnv ([callA, callB].take 2) []).1
        (([callA, callB].get ⟨0, by decide⟩).Name) =
      (if producesEntry idEnv (stateAt idEnv [callA, callB] 0)
          ([callA, callB].get ⟨0, by decide⟩)
       then some (storedVal idEnv (stateAt idEnv [callA, callB] 0)
          ([callA, callB].get ⟨0, by decide⟩)) else none) :=
  (run_store_discipline idEnv [callA, callB] (by decide)).1 2 0 (by decide)
    (by decide) (by decide)
